import Mathlib

/-!
# muon_reader: the two-pass muon analysis of `src/main.cpp`

`main` opens a CORSIKA shower file, scans every event once to find the range of
the muon energies and positions, builds two histograms over those ranges, scans
every event a second time to fill them, and prints a summary.

The embedding follows the source line by line:

* `double` is `Dbl`, an IEEE-754 binary64 value given by its numeric meaning
  (NaN, the two infinities, the two zeros, and the finite values as integer
  multiples of the least subnormal `2^-1074`); `<`, `==`, `/` and `+` are the
  IEEE operations (round to nearest, ties to even).
* the `int` counters `totalParticles` and `muonCount` are 32-bit: `++` wraps
  around in two's complement, from 2147483647 to -2147483648, which is what the
  compiled program does (`wrapInt32`); the particle code is an integer that is
  only compared, and `eventNumber` is the index of the lookup.
* `ShowerFile::FindEvent` / `GetCurrentShower().ParticleStream()` is a lookup
  from the event number to the particle sequence of that event (`none` when
  the status is not `eSuccess`); `GeV` (from `corsika/Units.h`) is a parameter.
* `TH1F` / `TH2F` keep the axis limits they were built with and the sequence of
  `Fill` arguments; `GetEntries` is the number of `Fill` calls.
* a `while (file.FindEvent(eventNumber) == eSuccess)` loop is a function with
  fuel; `none` means the fuel ran out before the lookup failed.
-/

set_option autoImplicit false

namespace MuonReader

/-! ## IEEE-754 binary64 -/

/-- A `double`. `fin m` is the finite value `m * 2^-1074` (`fin 0` is `+0.0`),
`nzero` is `-0.0`. -/
inductive Dbl where
  | nan
  | ninf
  | nzero
  | fin (m : Int)
  | pinf
  deriving DecidableEq, Repr

namespace Dbl

/-- The value of a finite double in units of `2^-1074` (0 for both zeros). -/
def units : Dbl → Int
  | fin m => m
  | _ => 0

/-- The number of units in 1.0: `2^1074`. -/
def one_units : Nat := 2 ^ 1074

/-- The double whose value is the integer `n` (exact for `|n| ≤ 2^53`). -/
def ofInt (n : Int) : Dbl := fin (n * (one_units : Int))

/-- The number of units in the largest finite double, `(2^53 - 1) * 2^971`. -/
def maxUnits : Nat := (2 ^ 53 - 1) * 2 ^ 2045

/-- The constant `numeric_limits<double>::max()`. -/
def dblMax : Dbl := fin (maxUnits : Int)

/-- The constant `numeric_limits<double>::lowest()`, which is `-max()`. -/
def dblLowest : Dbl := fin (-(maxUnits : Int))

/-- The operator `a < b` on doubles: false when either side is NaN. -/
def flt : Dbl → Dbl → Bool
  | nan, _ => false
  | _, nan => false
  | ninf, ninf => false
  | ninf, _ => true
  | _, ninf => false
  | pinf, _ => false
  | _, pinf => true
  | a, b => decide (a.units < b.units)

/-- The operator `a == b` on doubles: false when either side is NaN, and
`-0.0 == +0.0`. -/
def feq : Dbl → Dbl → Bool
  | nan, _ => false
  | _, nan => false
  | ninf, ninf => true
  | ninf, _ => false
  | _, ninf => false
  | pinf, pinf => true
  | pinf, _ => false
  | _, pinf => false
  | a, b => decide (a.units = b.units)

/-- The operator `a <= b` on doubles. -/
def fle (a b : Dbl) : Bool := a.flt b || a.feq b

/-- The sign bit. -/
def signBit : Dbl → Bool
  | nan => false
  | ninf => true
  | nzero => true
  | fin m => decide (m < 0)
  | pinf => false

/-- Whether the value is `+0.0` or `-0.0`. -/
def isZero : Dbl → Bool
  | nzero => true
  | fin m => decide (m = 0)
  | _ => false

/-- Number of binary digits of `n`, with fuel. -/
def bitLengthAux : Nat → Nat → Nat
  | 0, _ => 0
  | fuel + 1, n => if n = 0 then 0 else bitLengthAux fuel (n / 2) + 1

/-- Number of binary digits of `n`. -/
def bitLength (n : Nat) : Nat := bitLengthAux n n

/-- The quotient `a / b` rounded to the nearest integer, ties to even. -/
def divRoundEven (a b : Nat) : Nat :=
  let q := a / b
  let r := a % b
  if 2 * r < b then q
  else if b < 2 * r then q + 1
  else if q % 2 = 0 then q else q + 1

/-- Round the positive real `a / b`, given in units of `2^-1074`, to binary64
(53 significant bits, round to nearest, ties to even). `none` is overflow. -/
def roundUnits (a b : Nat) : Option Nat :=
  let k := bitLength (a / b) - 53
  let r := divRoundEven a (b * 2 ^ k) * 2 ^ k
  if r < 2 ^ 2098 then some r else none

/-- Attach a sign to a rounded magnitude. -/
def withSign (neg : Bool) : Option Nat → Dbl
  | none => if neg then ninf else pinf
  | some 0 => if neg then nzero else fin 0
  | some (n + 1) => if neg then fin (-((n + 1 : Nat) : Int)) else fin ((n + 1 : Nat) : Int)

/-- The operator `a + b` on doubles. -/
def add : Dbl → Dbl → Dbl
  | nan, _ => nan
  | _, nan => nan
  | pinf, ninf => nan
  | ninf, pinf => nan
  | pinf, _ => pinf
  | _, pinf => pinf
  | ninf, _ => ninf
  | _, ninf => ninf
  | nzero, nzero => nzero
  | a, b =>
    let s := a.units + b.units
    if s = 0 then fin 0 else withSign (decide (s < 0)) (roundUnits s.natAbs 1)

/-- The operator `a / b` on doubles. -/
def div (a b : Dbl) : Dbl :=
  let neg := a.signBit != b.signBit
  match a, b with
  | nan, _ => nan
  | _, nan => nan
  | pinf, pinf => nan
  | pinf, ninf => nan
  | ninf, pinf => nan
  | ninf, ninf => nan
  | pinf, _ => if neg then ninf else pinf
  | ninf, _ => if neg then ninf else pinf
  | _, pinf => if neg then nzero else fin 0
  | _, ninf => if neg then nzero else fin 0
  | a, b =>
    if b.isZero then
      if a.isZero then nan else if neg then ninf else pinf
    else if a.isZero then
      if neg then nzero else fin 0
    else withSign neg (roundUnits (a.units.natAbs * 2 ^ 1074) b.units.natAbs)

end Dbl

/-- The function `std::min(a, b)`: `(b < a) ? b : a`. -/
def stdMin (a b : Dbl) : Dbl := if b.flt a then b else a

/-- The function `std::max(a, b)`: `(a < b) ? b : a`. -/
def stdMax (a b : Dbl) : Dbl := if a.flt b then b else a

/-! ## The data read from the shower file -/

/-- A particle record as `main` reads it: `PDGCode()`, `KineticEnergy()`, and
the `float` fields `fX`, `fY` after `static_cast<double>`. -/
structure Particle where
  pdgCode : Int
  kineticEnergy : Dbl
  fX : Dbl
  fY : Dbl
  deriving DecidableEq, Repr

/-- The particle stream of one shower, in the order `NextParticle()` yields it. -/
abbrev Event := List Particle

/-- The event source: `file n` is the shower found by `FindEvent(n)`, `none`
when `FindEvent(n)` does not return `eSuccess`. -/
abbrev ShowerFile := Nat → Option Event

/-- The source over a finite sequence of events: event `n` is found exactly
for `1 ≤ n ≤ s.length`. -/
def ofList (s : List Event) : ShowerFile :=
  fun n => if n = 0 then none else s.get? (n - 1)

/-- The test `p_type == 13 || p_type == -13` (lines 52 and 88). -/
def isMuon (it : Particle) : Bool := it.pdgCode == 13 || it.pdgCode == -13

/-! ## The range scan (lines 34-71) -/

/-- The six range variables. -/
structure Ranges where
  minEnergy : Dbl
  maxEnergy : Dbl
  minX : Dbl
  maxX : Dbl
  minY : Dbl
  maxY : Dbl
  deriving DecidableEq, Repr

/-- Lines 34-39: the sentinels. -/
def initRanges : Ranges :=
  { minEnergy := Dbl.dblMax, maxEnergy := Dbl.dblLowest,
    minX := Dbl.dblMax, maxX := Dbl.dblLowest,
    minY := Dbl.dblMax, maxY := Dbl.dblLowest }

/-- Lines 50-60: the body of the inner loop of the range scan. -/
def scanParticle (GeV : Dbl) (r : Ranges) (it : Particle) : Ranges :=
  if isMuon it then
    let energy := it.kineticEnergy.div GeV
    { minEnergy := stdMin r.minEnergy energy,
      maxEnergy := stdMax r.maxEnergy energy,
      minX := stdMin r.minX it.fX,
      maxX := stdMax r.maxX it.fX,
      minY := stdMin r.minY it.fY,
      maxY := stdMax r.maxY it.fY }
  else r

/-- Lines 48-61: the inner loop over the particles of one shower. -/
def scanEvent (GeV : Dbl) (r : Ranges) (particles : Event) : Ranges :=
  particles.foldl (scanParticle GeV) r

/-- Lines 47-63: the loop `while (file.FindEvent(eventNumber) == eSuccess)` of
the range scan, from `eventNumber` on. -/
def scanLoop (GeV : Dbl) (file : ShowerFile) : Nat → Nat → Ranges → Option Ranges
  | 0, _, _ => none
  | fuel + 1, eventNumber, r =>
    match file eventNumber with
    | none => some r
    | some particles => scanLoop GeV file fuel (eventNumber + 1) (scanEvent GeV r particles)

/-- Lines 66-71: the adjustment after the scan. -/
def adjustRanges (r : Ranges) : Ranges :=
  { minEnergy := if r.minEnergy.feq Dbl.dblMax then Dbl.ofInt 0 else r.minEnergy,
    maxEnergy := if r.maxEnergy.feq Dbl.dblLowest then Dbl.ofInt 1 else r.maxEnergy,
    minX := if r.minX.feq Dbl.dblMax then Dbl.ofInt (-1000) else r.minX,
    maxX := if r.maxX.feq Dbl.dblLowest then Dbl.ofInt 1000 else r.maxX,
    minY := if r.minY.feq Dbl.dblMax then Dbl.ofInt (-1000) else r.minY,
    maxY := if r.maxY.feq Dbl.dblLowest then Dbl.ofInt 1000 else r.maxY }

/-! ## The histograms and the fill pass (lines 74-98) -/

/-- A one-dimensional histogram: the constructor arguments and the `Fill` calls
received so far, oldest first. -/
structure TH1F where
  nbinsx : Nat
  xlow : Dbl
  xup : Dbl
  fills : List Dbl
  deriving DecidableEq, Repr

/-- A two-dimensional histogram: the constructor arguments and the `Fill` calls
received so far, oldest first. -/
structure TH2F where
  nbinsx : Nat
  xlow : Dbl
  xup : Dbl
  nbinsy : Nat
  ylow : Dbl
  yup : Dbl
  fills : List (Dbl × Dbl)
  deriving DecidableEq, Repr

/-- The call `h->Fill(x)`. -/
def TH1F.Fill (h : TH1F) (x : Dbl) : TH1F := { h with fills := h.fills ++ [x] }

/-- The call `h->Fill(x, y)`. -/
def TH2F.Fill (h : TH2F) (x y : Dbl) : TH2F := { h with fills := h.fills ++ [(x, y)] }

/-- The call `h->GetEntries()`: ROOT counts one entry per `Fill`, whatever bin
(underflow and overflow included) the value lands in. -/
def TH1F.GetEntries (h : TH1F) : Nat := h.fills.length

/-- The call `h->GetEntries()`: ROOT counts one entry per `Fill`, whatever bin
(underflow and overflow included) the value lands in. -/
def TH2F.GetEntries (h : TH2F) : Nat := h.fills.length

/-- The value a 32-bit `int` holds when the mathematical result is `n`: `n`
reduced into `[-2^31, 2^31)` by two's complement wrap-around. -/
def wrapInt32 (n : Int) : Int := (n + 2147483648) % 4294967296 - 2147483648

/-- The variables the fill pass updates; `totalParticles` and `muonCount` are
the 32-bit `int` counters of lines 41-42. -/
structure FillState where
  hMuonEnergy : TH1F
  hMuonPosition : TH2F
  totalParticles : Int
  muonCount : Int
  muonEnergySum : Dbl
  deriving DecidableEq, Repr

/-- Lines 41-43 and 74-78: the counters at zero and the two empty histograms
over the adjusted ranges. -/
def initFill (r : Ranges) : FillState :=
  { hMuonEnergy := { nbinsx := 100, xlow := r.minEnergy, xup := r.maxEnergy, fills := [] },
    hMuonPosition := { nbinsx := 100, xlow := r.minX, xup := r.maxX,
                       nbinsy := 100, ylow := r.minY, yup := r.maxY, fills := [] },
    totalParticles := 0,
    muonCount := 0,
    muonEnergySum := Dbl.ofInt 0 }

/-- Lines 87-95: the body of the inner loop of the fill pass. -/
def fillParticle (GeV : Dbl) (st : FillState) (it : Particle) : FillState :=
  let st1 :=
    if isMuon it then
      let energy := it.kineticEnergy.div GeV
      { st with
        hMuonEnergy := st.hMuonEnergy.Fill energy,
        hMuonPosition := st.hMuonPosition.Fill it.fX it.fY,
        muonEnergySum := st.muonEnergySum.add energy,
        muonCount := wrapInt32 (st.muonCount + 1) }
    else st
  { st1 with totalParticles := wrapInt32 (st1.totalParticles + 1) }

/-- Lines 85-96: the inner loop over the particles of one shower. -/
def fillEvent (GeV : Dbl) (st : FillState) (particles : Event) : FillState :=
  particles.foldl (fillParticle GeV) st

/-- Lines 84-98: the loop `while (file.FindEvent(eventNumber) == eSuccess)` of
the fill pass, from `eventNumber` on. -/
def fillLoop (GeV : Dbl) (file : ShowerFile) : Nat → Nat → FillState → Option FillState
  | 0, _, _ => none
  | fuel + 1, eventNumber, st =>
    match file eventNumber with
    | none => some st
    | some particles => fillLoop GeV file fuel (eventNumber + 1) (fillEvent GeV st particles)

/-! ## The shared loop shape -/

/-- The shape both event loops share: look up `eventNumber`, stop when the
lookup fails, otherwise process the shower and go on with `eventNumber + 1`.
The loops `scanLoop` and `fillLoop` are instances of it (proved below). -/
def eventLoop {σ : Type} (step : σ → Event → σ) (file : ShowerFile) : Nat → Nat → σ → Option σ
  | 0, _, _ => none
  | fuel + 1, eventNumber, acc =>
    match file eventNumber with
    | none => some acc
    | some particles => eventLoop step file fuel (eventNumber + 1) (step acc particles)

/-! ## The program -/

/-- What a successful run has computed when it prints the summary: the ranges
handed to the histogram constructors and the state after the fill pass. -/
structure Analysis where
  ranges : Ranges
  result : FillState
  deriving DecidableEq, Repr

/-- Lines 33-98: both passes, each starting at `eventNumber = 1`. -/
def analyse (GeV : Dbl) (file : ShowerFile) (fuel : Nat) : Option Analysis :=
  match scanLoop GeV file fuel 1 initRanges with
  | none => none
  | some r0 =>
    let r := adjustRanges r0
    match fillLoop GeV file fuel 1 (initFill r) with
    | none => none
    | some st => some { ranges := r, result := st }

/-- The lines printed on success (lines 100-106). -/
structure Summary where
  totalParticles : Int
  muons : Int
  totalMuonEnergy : Dbl
  energyEntries : Nat
  positionEntries : Nat
  deriving DecidableEq, Repr

/-- Lines 100-106. -/
def summary (a : Analysis) : Summary :=
  { totalParticles := a.result.totalParticles,
    muons := a.result.muonCount,
    totalMuonEnergy := a.result.muonEnergySum,
    energyEntries := a.result.hMuonEnergy.GetEntries,
    positionEntries := a.result.hMuonPosition.GetEntries }

/-- The function `main`: the exit code and, on success, the printed summary.
`fileOpen` is `none` when `file.IsOpen()` is false. -/
def main (GeV : Dbl) (argc : Int) (fileOpen : Option ShowerFile) (fuel : Nat) :
    Option (Int × Option Summary) :=
  if argc ≠ 2 then some (1, none)
  else
    match fileOpen with
    | none => some (1, none)
    | some file =>
      match analyse GeV file fuel with
      | none => none
      | some a => some (0, some (summary a))

/-! ## The vocabulary of the specification -/

/-- All particles of a stream, in stream order. -/
def particlesOf (s : List Event) : List Particle := s.flatten

/-- The qualifying particles of a stream, in stream order. -/
def muonsOf (s : List Event) : List Particle := (particlesOf s).filter isMuon

/-- The number of particles, over all events, whose type code is 13 or -13. -/
def countMuons (s : List Event) : Nat :=
  (s.map (fun ev => ev.countP (fun p => decide (p.pdgCode = 13 ∨ p.pdgCode = -13)))).sum

/-- The sum over all events of the length of the particle sequence. -/
def countParticles (s : List Event) : Nat := (s.map List.length).sum

/-- The converted energy of a particle, `KineticEnergy() / GeV`. -/
def energyOf (GeV : Dbl) (it : Particle) : Dbl := it.kineticEnergy.div GeV

/-- The converted energies of the qualifying particles, in stream order. -/
def muonEnergies (GeV : Dbl) (s : List Event) : List Dbl := (muonsOf s).map (energyOf GeV)

/-- The `fX` of the qualifying particles, in stream order. -/
def muonXs (s : List Event) : List Dbl := (muonsOf s).map (fun it => it.fX)

/-- The `fY` of the qualifying particles, in stream order. -/
def muonYs (s : List Event) : List Dbl := (muonsOf s).map (fun it => it.fY)

/-- The value `m` is a least value of `vs`: it occurs in `vs` and `m <= v` for
every `v` of `vs`. -/
abbrev IsLeastOf (vs : List Dbl) (m : Dbl) : Prop := m ∈ vs ∧ ∀ v ∈ vs, m.fle v = true

/-- The value `m` is a greatest value of `vs`. -/
abbrev IsGreatestOf (vs : List Dbl) (m : Dbl) : Prop := m ∈ vs ∧ ∀ v ∈ vs, v.fle m = true

/-- The six ranges are the least and greatest qualifying energy, `fX` and `fY`. -/
abbrev RangesAreExtrema (GeV : Dbl) (s : List Event) (r : Ranges) : Prop :=
  IsLeastOf (muonEnergies GeV s) r.minEnergy ∧ IsGreatestOf (muonEnergies GeV s) r.maxEnergy ∧
  IsLeastOf (muonXs s) r.minX ∧ IsGreatestOf (muonXs s) r.maxX ∧
  IsLeastOf (muonYs s) r.minY ∧ IsGreatestOf (muonYs s) r.maxY

/-- The three values filled for a particle lie inside the ranges. -/
abbrev FilledInside (GeV : Dbl) (r : Ranges) (it : Particle) : Prop :=
  (r.minEnergy.fle (energyOf GeV it) = true ∧ (energyOf GeV it).fle r.maxEnergy = true) ∧
  (r.minX.fle it.fX = true ∧ it.fX.fle r.maxX = true) ∧
  (r.minY.fle it.fY = true ∧ it.fY.fle r.maxY = true)

/-- The events found at the indices `1, 2, ..., k - 1`, in increasing order. -/
def eventsBefore (file : ShowerFile) (k : Nat) : List Event :=
  (List.range' 1 (k - 1)).filterMap file

/-- The stream of the end-to-end scenario: one event with three particles. -/
def scenario : List Event :=
  [[ { pdgCode := 13, kineticEnergy := Dbl.ofInt 5, fX := Dbl.ofInt 10, fY := Dbl.ofInt 20 },
     { pdgCode := -13, kineticEnergy := Dbl.ofInt 3, fX := Dbl.ofInt (-5), fY := Dbl.ofInt 0 },
     { pdgCode := 11, kineticEnergy := Dbl.ofInt 100, fX := Dbl.ofInt 0, fY := Dbl.ofInt 0 } ]]

/-- A stream of one muon whose energy is `numeric_limits<double>::max()`, whose
`fX` is `+inf` and whose `fY` is `-inf`. -/
def sentinelStream : List Event :=
  [[ { pdgCode := 13, kineticEnergy := Dbl.dblMax, fX := Dbl.pinf, fY := Dbl.ninf } ]]

/-- A stream of one muon whose `fX` is NaN. -/
def nanStream : List Event :=
  [[ { pdgCode := 13, kineticEnergy := Dbl.ofInt 5, fX := Dbl.nan, fY := Dbl.ofInt 20 } ]]

/-- A stream of one muon with ordinary energy and `fY` whose `fX` is `+inf`. -/
def infStream : List Event :=
  [[ { pdgCode := 13, kineticEnergy := Dbl.ofInt 5, fX := Dbl.pinf, fY := Dbl.ofInt 20 } ]]

/-- A stream of one event with 2147483648 muons. -/
def manyMuons : List Event :=
  [List.replicate 2147483648
    { pdgCode := 13, kineticEnergy := Dbl.ofInt 5, fX := Dbl.ofInt 10, fY := Dbl.ofInt 20 }]

/-- A stream without muons: an electron and a photon, then an empty event. -/
def noMuonStream : List Event :=
  [[ { pdgCode := 11, kineticEnergy := Dbl.ofInt 7, fX := Dbl.ofInt 1, fY := Dbl.ofInt 2 },
     { pdgCode := 22, kineticEnergy := Dbl.ofInt 9, fX := Dbl.ofInt 3, fY := Dbl.ofInt 4 } ],
   []]

/-- The range-scan claim as the specification states it, at one stream: with
at least one qualifying particle, the run returns ranges that are the least
and greatest qualifying energy, `fX` and `fY`. -/
abbrev RangeScanClaim (GeV : Dbl) (s : List Event) (fuel : Nat) : Prop :=
  muonsOf s ≠ [] →
    ∃ a, analyse GeV (ofList s) fuel = some a ∧ RangesAreExtrema GeV s a.ranges

/-- The muon-count claim as the specification states it, at one stream: the
muon count after the fill pass is the number of qualifying particles. -/
abbrev MuonCountClaim (GeV : Dbl) (s : List Event) (fuel : Nat) : Prop :=
  ∃ a, analyse GeV (ofList s) fuel = some a ∧ a.result.muonCount = (countMuons s : Int)

/-- The total-count claim as the specification states it, at one stream: the
particle count after the fill pass is the sum of the event lengths. -/
abbrev TotalParticlesClaim (GeV : Dbl) (s : List Event) (fuel : Nat) : Prop :=
  ∃ a, analyse GeV (ofList s) fuel = some a ∧
    a.result.totalParticles = (countParticles s : Int)

/-- The entries claim as the specification states it, at one stream: both
entry counts equal the muon count. -/
abbrev EntriesClaim (GeV : Dbl) (s : List Event) (fuel : Nat) : Prop :=
  ∃ a, analyse GeV (ofList s) fuel = some a ∧
    (a.result.hMuonEnergy.GetEntries : Int) = a.result.muonCount ∧
    (a.result.hMuonPosition.GetEntries : Int) = a.result.muonCount

/-- The in-range claim as the specification states it, at one stream: every
qualifying particle is filled with values inside the ranges. -/
abbrev FilledInsideClaim (GeV : Dbl) (s : List Event) (fuel : Nat) : Prop :=
  ∃ a, analyse GeV (ofList s) fuel = some a ∧ ∀ it ∈ muonsOf s, FilledInside GeV a.ranges it

/-- Each of the three values filled for a particle that is not NaN lies inside
its range. -/
abbrev FilledInsideUnlessNaN (GeV : Dbl) (r : Ranges) (it : Particle) : Prop :=
  (energyOf GeV it ≠ Dbl.nan →
    r.minEnergy.fle (energyOf GeV it) = true ∧ (energyOf GeV it).fle r.maxEnergy = true) ∧
  (it.fX ≠ Dbl.nan → r.minX.fle it.fX = true ∧ it.fX.fle r.maxX = true) ∧
  (it.fY ≠ Dbl.nan → r.minY.fle it.fY = true ∧ it.fY.fle r.maxY = true)

/-! ## Order facts about `double` comparisons -/

namespace Dbl

theorem flt_ne_nan_left {a b : Dbl} (h : a.flt b = true) : a ≠ nan := by
  cases a <;> cases b <;> simp_all [flt]

theorem flt_ne_nan_right {a b : Dbl} (h : a.flt b = true) : b ≠ nan := by
  cases a <;> cases b <;> simp_all [flt]

theorem fle_of_flt {a b : Dbl} (h : a.flt b = true) : a.fle b = true := by
  simp [fle, h]

theorem fle_of_not_flt {a b : Dbl} (ha : a ≠ nan) (hb : b ≠ nan) (h : b.flt a = false) :
    a.fle b = true := by
  cases a <;> cases b <;> simp_all [flt, feq, fle, units] <;> omega

theorem fle_refl {a : Dbl} (ha : a ≠ nan) : a.fle a = true := by
  cases a <;> simp_all [flt, feq, fle, units]

theorem fle_trans {a b c : Dbl} (hab : a.fle b = true) (hbc : b.fle c = true) :
    a.fle c = true := by
  cases a <;> cases b <;> cases c <;> simp_all [flt, feq, fle, units] <;> omega

theorem flt_of_flt_of_fle {a b c : Dbl} (hab : a.flt b = true) (hbc : b.fle c = true) :
    a.flt c = true := by
  cases a <;> cases b <;> cases c <;> simp_all [flt, feq, fle, units] <;> omega

theorem flt_of_fle_of_flt {a b c : Dbl} (hab : a.fle b = true) (hbc : b.flt c = true) :
    a.flt c = true := by
  cases a <;> cases b <;> cases c <;> simp_all [flt, feq, fle, units] <;> omega

theorem feq_false_of_flt {a b : Dbl} (h : a.flt b = true) : a.feq b = false := by
  cases a <;> cases b <;> simp_all [flt, feq, units] <;> omega

theorem feq_false_of_flt' {a b : Dbl} (h : b.flt a = true) : a.feq b = false := by
  cases a <;> cases b <;> simp_all [flt, feq, units] <;> omega

theorem maxUnits_pos : 0 < maxUnits := by decide!

theorem eq_dblMax_of_feq {a : Dbl} (h : a.feq dblMax = true) : a = dblMax := by
  have := maxUnits_pos
  cases a <;> simp_all [feq, dblMax, units]
  omega

theorem eq_dblLowest_of_feq {a : Dbl} (h : a.feq dblLowest = true) : a = dblLowest := by
  have := maxUnits_pos
  cases a <;> simp_all [feq, dblLowest, units]


end Dbl

/-! ## `std::min` / `std::max` folded over a sequence of values -/

theorem stdMin_ne_nan {a : Dbl} (b : Dbl) (ha : a ≠ Dbl.nan) : stdMin a b ≠ Dbl.nan := by
  unfold stdMin
  split
  · next h => exact Dbl.flt_ne_nan_left h
  · exact ha

theorem stdMax_ne_nan {a : Dbl} (b : Dbl) (ha : a ≠ Dbl.nan) : stdMax a b ≠ Dbl.nan := by
  unfold stdMax
  split
  · next h => exact Dbl.flt_ne_nan_right h
  · exact ha

theorem stdMin_fle_left {a : Dbl} (b : Dbl) (ha : a ≠ Dbl.nan) : (stdMin a b).fle a = true := by
  unfold stdMin
  split
  · next h => exact Dbl.fle_of_flt h
  · exact Dbl.fle_refl ha

theorem stdMin_fle_right {a b : Dbl} (ha : a ≠ Dbl.nan) (hb : b ≠ Dbl.nan) :
    (stdMin a b).fle b = true := by
  unfold stdMin
  split
  · exact Dbl.fle_refl hb
  · next h => exact Dbl.fle_of_not_flt ha hb (by simpa using h)

theorem fle_stdMax_left {a : Dbl} (b : Dbl) (ha : a ≠ Dbl.nan) : a.fle (stdMax a b) = true := by
  unfold stdMax
  split
  · next h => exact Dbl.fle_of_flt h
  · exact Dbl.fle_refl ha

theorem fle_stdMax_right {a b : Dbl} (ha : a ≠ Dbl.nan) (hb : b ≠ Dbl.nan) :
    b.fle (stdMax a b) = true := by
  unfold stdMax
  split
  · exact Dbl.fle_refl hb
  · next h => exact Dbl.fle_of_not_flt hb ha (by simpa using h)

theorem foldl_stdMin_ne_nan (vs : List Dbl) : ∀ a : Dbl, a ≠ Dbl.nan →
    vs.foldl stdMin a ≠ Dbl.nan := by
  induction vs with
  | nil => intro a ha; simpa using ha
  | cons v vs ih => intro a ha; exact ih _ (stdMin_ne_nan v ha)

theorem foldl_stdMax_ne_nan (vs : List Dbl) : ∀ a : Dbl, a ≠ Dbl.nan →
    vs.foldl stdMax a ≠ Dbl.nan := by
  induction vs with
  | nil => intro a ha; simpa using ha
  | cons v vs ih => intro a ha; exact ih _ (stdMax_ne_nan v ha)

theorem foldl_stdMin_fle_init (vs : List Dbl) : ∀ a : Dbl, a ≠ Dbl.nan →
    (vs.foldl stdMin a).fle a = true := by
  induction vs with
  | nil => intro a ha; exact Dbl.fle_refl ha
  | cons v vs ih =>
    intro a ha
    exact Dbl.fle_trans (ih _ (stdMin_ne_nan v ha)) (stdMin_fle_left v ha)

theorem fle_foldl_stdMax_init (vs : List Dbl) : ∀ a : Dbl, a ≠ Dbl.nan →
    a.fle (vs.foldl stdMax a) = true := by
  induction vs with
  | nil => intro a ha; exact Dbl.fle_refl ha
  | cons v vs ih =>
    intro a ha
    exact Dbl.fle_trans (fle_stdMax_left v ha) (ih _ (stdMax_ne_nan v ha))

theorem foldl_stdMin_fle_mem (vs : List Dbl) : ∀ a : Dbl, a ≠ Dbl.nan →
    ∀ w ∈ vs, w ≠ Dbl.nan → (vs.foldl stdMin a).fle w = true := by
  induction vs with
  | nil => intro a _ w hw; simp at hw
  | cons v vs ih =>
    intro a ha w hw hn
    rcases List.mem_cons.mp hw with rfl | hw
    · exact Dbl.fle_trans (foldl_stdMin_fle_init vs _ (stdMin_ne_nan w ha))
        (stdMin_fle_right ha hn)
    · exact ih _ (stdMin_ne_nan v ha) w hw hn

theorem fle_foldl_stdMax_mem (vs : List Dbl) : ∀ a : Dbl, a ≠ Dbl.nan →
    ∀ w ∈ vs, w ≠ Dbl.nan → w.fle (vs.foldl stdMax a) = true := by
  induction vs with
  | nil => intro a _ w hw; simp at hw
  | cons v vs ih =>
    intro a ha w hw hn
    rcases List.mem_cons.mp hw with rfl | hw
    · exact Dbl.fle_trans (fle_stdMax_right ha hn)
        (fle_foldl_stdMax_init vs _ (stdMax_ne_nan w ha))
    · exact ih _ (stdMax_ne_nan v ha) w hw hn

theorem foldl_stdMin_eq_or_mem (vs : List Dbl) : ∀ a : Dbl,
    vs.foldl stdMin a = a ∨ vs.foldl stdMin a ∈ vs := by
  induction vs with
  | nil => intro a; simp
  | cons v vs ih =>
    intro a
    rcases ih (stdMin a v) with h | h
    · simp only [List.foldl_cons, h]
      unfold stdMin
      split
      · right; simp
      · left; rfl
    · right; exact List.mem_cons_of_mem _ h

theorem foldl_stdMax_eq_or_mem (vs : List Dbl) : ∀ a : Dbl,
    vs.foldl stdMax a = a ∨ vs.foldl stdMax a ∈ vs := by
  induction vs with
  | nil => intro a; simp
  | cons v vs ih =>
    intro a
    rcases ih (stdMax a v) with h | h
    · simp only [List.foldl_cons, h]
      unfold stdMax
      split
      · right; simp
      · left; rfl
    · right; exact List.mem_cons_of_mem _ h

theorem foldl_stdMin_flt (vs : List Dbl) (a : Dbl) (ha : a ≠ Dbl.nan)
    (h : ∃ v ∈ vs, v.flt a = true) : (vs.foldl stdMin a).flt a = true := by
  obtain ⟨v, hv, hlt⟩ := h
  exact Dbl.flt_of_fle_of_flt (foldl_stdMin_fle_mem vs a ha v hv (Dbl.flt_ne_nan_left hlt)) hlt

theorem flt_foldl_stdMax (vs : List Dbl) (a : Dbl) (ha : a ≠ Dbl.nan)
    (h : ∃ v ∈ vs, a.flt v = true) : a.flt (vs.foldl stdMax a) = true := by
  obtain ⟨v, hv, hlt⟩ := h
  exact Dbl.flt_of_flt_of_fle hlt (fle_foldl_stdMax_mem vs a ha v hv (Dbl.flt_ne_nan_right hlt))

/-! ## The two event loops -/

theorem scanLoop_eq_eventLoop (GeV : Dbl) (file : ShowerFile) : ∀ (fuel n : Nat) (r : Ranges),
    scanLoop GeV file fuel n r = eventLoop (scanEvent GeV) file fuel n r := by
  intro fuel
  induction fuel with
  | zero => intro n r; rfl
  | succ fuel ih =>
    intro n r
    simp only [scanLoop, eventLoop]
    cases file n with
    | none => rfl
    | some e => exact ih _ _

theorem fillLoop_eq_eventLoop (GeV : Dbl) (file : ShowerFile) : ∀ (fuel n : Nat) (st : FillState),
    fillLoop GeV file fuel n st = eventLoop (fillEvent GeV) file fuel n st := by
  intro fuel
  induction fuel with
  | zero => intro n r; rfl
  | succ fuel ih =>
    intro n r
    simp only [fillLoop, eventLoop]
    cases file n with
    | none => rfl
    | some e => exact ih _ _

/-- A loop over a source that agrees with the list `evs` from `n` on visits
exactly `evs`. -/
theorem eventLoop_of_get {σ : Type} (step : σ → Event → σ) (file : ShowerFile) :
    ∀ (evs : List Event) (fuel n : Nat) (acc : σ),
      (∀ i, i ≤ evs.length → file (n + i) = evs.get? i) → evs.length < fuel →
      eventLoop step file fuel n acc = some (evs.foldl step acc) := by
  intro evs
  induction evs with
  | nil =>
    intro fuel n acc h hf
    obtain ⟨f, rfl⟩ : ∃ f, fuel = f + 1 := ⟨fuel - 1, by simp at hf; omega⟩
    have h0 := h 0 (Nat.le_refl _)
    simp at h0
    simp [eventLoop, h0]
  | cons e es ih =>
    intro fuel n acc h hf
    obtain ⟨f, rfl⟩ : ∃ f, fuel = f + 1 := ⟨fuel - 1, by simp at hf; omega⟩
    have h0 := h 0 (Nat.zero_le _)
    simp at h0
    simp only [eventLoop, h0, List.foldl_cons]
    apply ih
    · intro i hi
      have := h (i + 1) (by simp; omega)
      simpa [Nat.add_assoc, Nat.add_comm 1 i] using this
    · simp at hf; omega

theorem ofList_get (s : List Event) (i : Nat) : ofList s (1 + i) = s.get? i := by
  simp [ofList, Nat.add_comm 1 i]

/-- A loop over a source whose least failing index is `n + len` visits the
events found at `n, ..., n + len - 1`. -/
theorem eventLoop_of_least {σ : Type} (step : σ → Event → σ) (file : ShowerFile) :
    ∀ (len fuel n : Nat) (acc : σ),
      (∀ i, n ≤ i → i < n + len → (file i).isSome = true) → file (n + len) = none →
      len < fuel →
      eventLoop step file fuel n acc =
        some (((List.range' n len).filterMap file).foldl step acc) := by
  intro len
  induction len with
  | zero =>
    intro fuel n acc _ hstop hf
    obtain ⟨f, rfl⟩ : ∃ f, fuel = f + 1 := ⟨fuel - 1, by omega⟩
    simp at hstop
    simp [eventLoop, hstop]
  | succ len ih =>
    intro fuel n acc hfound hstop hf
    obtain ⟨f, rfl⟩ : ∃ f, fuel = f + 1 := ⟨fuel - 1, by omega⟩
    have h0 := hfound n (Nat.le_refl _) (by omega)
    obtain ⟨e, he⟩ := Option.isSome_iff_exists.mp h0
    have hr : List.range' n (len + 1) = n :: List.range' (n + 1) len := by
      simp [List.range'_succ]
    simp only [eventLoop, he, hr, List.filterMap_cons, List.foldl_cons]
    apply ih
    · intro i h1 h2; exact hfound i (by omega) (by omega)
    · rw [← hstop]; congr 1; omega
    · omega

/-! ## What the two passes compute over a finite stream -/

theorem foldl_scanParticle (GeV : Dbl) (ps : List Particle) : ∀ r : Ranges,
    ps.foldl (scanParticle GeV) r =
      { minEnergy := (((ps.filter isMuon).map (energyOf GeV)).foldl stdMin r.minEnergy),
        maxEnergy := (((ps.filter isMuon).map (energyOf GeV)).foldl stdMax r.maxEnergy),
        minX := (((ps.filter isMuon).map (fun it => it.fX)).foldl stdMin r.minX),
        maxX := (((ps.filter isMuon).map (fun it => it.fX)).foldl stdMax r.maxX),
        minY := (((ps.filter isMuon).map (fun it => it.fY)).foldl stdMin r.minY),
        maxY := (((ps.filter isMuon).map (fun it => it.fY)).foldl stdMax r.maxY) } := by
  induction ps with
  | nil => intro r; rfl
  | cons p ps ih =>
    intro r
    rw [List.foldl_cons, ih]
    by_cases h : isMuon p = true
    · simp [scanParticle, h, List.filter_cons, energyOf]
    · simp [scanParticle, h, List.filter_cons]

theorem foldl_scanEvent (GeV : Dbl) (s : List Event) : ∀ r : Ranges,
    s.foldl (scanEvent GeV) r = (particlesOf s).foldl (scanParticle GeV) r := by
  induction s with
  | nil => intro r; rfl
  | cons e es ih =>
    intro r
    simp only [List.foldl_cons, ih, particlesOf, List.flatten_cons, List.foldl_append, scanEvent]

/-- The range scan over a finite stream. -/
theorem scan_stream (GeV : Dbl) (s : List Event) (r : Ranges) :
    s.foldl (scanEvent GeV) r =
      { minEnergy := (muonEnergies GeV s).foldl stdMin r.minEnergy,
        maxEnergy := (muonEnergies GeV s).foldl stdMax r.maxEnergy,
        minX := (muonXs s).foldl stdMin r.minX,
        maxX := (muonXs s).foldl stdMax r.maxX,
        minY := (muonYs s).foldl stdMin r.minY,
        maxY := (muonYs s).foldl stdMax r.maxY } := by
  rw [foldl_scanEvent, foldl_scanParticle]
  rfl

theorem wrapInt32_succ (n : Int) : wrapInt32 (wrapInt32 n + 1) = wrapInt32 (n + 1) := by
  unfold wrapInt32
  omega

theorem wrapInt32_of_bounds {n : Int} (h1 : -2147483648 ≤ n) (h2 : n ≤ 2147483647) :
    wrapInt32 n = n := by
  unfold wrapInt32
  omega

/-- Counting `n` times from zero with a 32-bit `++`. -/
theorem iterate_inc_zero (n : Nat) :
    (fun x : Int => wrapInt32 (x + 1))^[n] 0 = wrapInt32 (n : Int) := by
  induction n with
  | zero => rfl
  | succ n ih =>
    rw [Function.iterate_succ_apply', ih, wrapInt32_succ]
    simp

theorem foldl_fillParticle (GeV : Dbl) (ps : List Particle) : ∀ st : FillState,
    ps.foldl (fillParticle GeV) st =
      { hMuonEnergy :=
          { st.hMuonEnergy with
            fills := st.hMuonEnergy.fills ++ (ps.filter isMuon).map (energyOf GeV) },
        hMuonPosition :=
          { st.hMuonPosition with
            fills := st.hMuonPosition.fills ++ (ps.filter isMuon).map (fun it => (it.fX, it.fY)) },
        totalParticles := (fun x : Int => wrapInt32 (x + 1))^[ps.length] st.totalParticles,
        muonCount := (fun x : Int => wrapInt32 (x + 1))^[(ps.filter isMuon).length] st.muonCount,
        muonEnergySum :=
          ((ps.filter isMuon).map (energyOf GeV)).foldl Dbl.add st.muonEnergySum } := by
  induction ps with
  | nil => intro st; simp
  | cons p ps ih =>
    intro st
    rw [List.foldl_cons, ih]
    by_cases h : isMuon p = true
    · simp [fillParticle, h, List.filter_cons, energyOf, TH1F.Fill, TH2F.Fill]
    · simp [fillParticle, h, List.filter_cons]

theorem foldl_fillEvent (GeV : Dbl) (s : List Event) : ∀ st : FillState,
    s.foldl (fillEvent GeV) st = (particlesOf s).foldl (fillParticle GeV) st := by
  induction s with
  | nil => intro r; rfl
  | cons e es ih =>
    intro r
    simp only [List.foldl_cons, ih, particlesOf, List.flatten_cons, List.foldl_append, fillEvent]

/-- The fill pass over a finite stream. -/
theorem fill_stream (GeV : Dbl) (s : List Event) (st : FillState) :
    s.foldl (fillEvent GeV) st =
      { hMuonEnergy :=
          { st.hMuonEnergy with fills := st.hMuonEnergy.fills ++ muonEnergies GeV s },
        hMuonPosition :=
          { st.hMuonPosition with
            fills := st.hMuonPosition.fills ++ (muonsOf s).map (fun it => (it.fX, it.fY)) },
        totalParticles :=
          (fun x : Int => wrapInt32 (x + 1))^[(particlesOf s).length] st.totalParticles,
        muonCount := (fun x : Int => wrapInt32 (x + 1))^[(muonsOf s).length] st.muonCount,
        muonEnergySum := (muonEnergies GeV s).foldl Dbl.add st.muonEnergySum } := by
  rw [foldl_fillEvent, foldl_fillParticle]
  rfl

theorem length_particlesOf (s : List Event) : (particlesOf s).length = countParticles s := by
  induction s with
  | nil => rfl
  | cons e es ih =>
    simp only [particlesOf, List.flatten_cons, List.length_append] at ih ⊢
    simp [countParticles, ih]

theorem length_muonsOf (s : List Event) : (muonsOf s).length = countMuons s := by
  induction s with
  | nil => rfl
  | cons e es ih =>
    simp only [muonsOf, particlesOf, List.flatten_cons, List.filter_append, List.length_append] at ih ⊢
    rw [ih]
    simp only [countMuons, List.map_cons, List.sum_cons]
    congr 1
    rw [← List.countP_eq_length_filter]
    congr 1
    funext p
    simp only [isMuon, Bool.decide_or]
    rfl

theorem countMuons_replicate (n : Nat) (it : Particle)
    (h : it.pdgCode = 13 ∨ it.pdgCode = -13) : countMuons [List.replicate n it] = n := by
  simp [countMuons, List.countP_replicate, h]

theorem countParticles_replicate (n : Nat) (it : Particle) :
    countParticles [List.replicate n it] = n := by
  simp [countParticles]

/-- The fill pass over a finite stream, from the state of lines 41-43 and 74-78:
each counter is the count wrapped to 32 bits. -/
theorem fill_stream_init (GeV : Dbl) (s : List Event) (r : Ranges) :
    s.foldl (fillEvent GeV) (initFill r) =
      { hMuonEnergy :=
          { nbinsx := 100, xlow := r.minEnergy, xup := r.maxEnergy,
            fills := muonEnergies GeV s },
        hMuonPosition :=
          { nbinsx := 100, xlow := r.minX, xup := r.maxX,
            nbinsy := 100, ylow := r.minY, yup := r.maxY,
            fills := (muonsOf s).map (fun it => (it.fX, it.fY)) },
        totalParticles := wrapInt32 (countParticles s : Int),
        muonCount := wrapInt32 (countMuons s : Int),
        muonEnergySum := (muonEnergies GeV s).foldl Dbl.add (Dbl.ofInt 0) } := by
  rw [fill_stream]
  simp only [initFill, List.nil_append, iterate_inc_zero, length_particlesOf, length_muonsOf]

/-- Both passes over a finite stream, with enough fuel. -/
theorem analyse_ofList (GeV : Dbl) (s : List Event) (fuel : Nat) (h : s.length < fuel) :
    analyse GeV (ofList s) fuel =
      some { ranges := adjustRanges (s.foldl (scanEvent GeV) initRanges),
             result := s.foldl (fillEvent GeV)
               (initFill (adjustRanges (s.foldl (scanEvent GeV) initRanges))) } := by
  have hs := eventLoop_of_get (scanEvent GeV) (ofList s) s fuel 1 initRanges
    (fun i _ => ofList_get s i) h
  have hf := fun st => eventLoop_of_get (fillEvent GeV) (ofList s) s fuel 1 st
    (fun i _ => ofList_get s i) h
  simp only [analyse, scanLoop_eq_eventLoop, fillLoop_eq_eventLoop, hs, hf]

/-! ## The adjustment of lines 66-71 on the scanned extrema -/

theorem feq_dblMax_self : Dbl.dblMax.feq Dbl.dblMax = true := by
  simp [Dbl.feq, Dbl.dblMax, Dbl.units]

theorem feq_dblLowest_self : Dbl.dblLowest.feq Dbl.dblLowest = true := by
  simp [Dbl.feq, Dbl.dblLowest, Dbl.units]

theorem dblMax_ne_nan : Dbl.dblMax ≠ Dbl.nan := by simp [Dbl.dblMax]

theorem dblLowest_ne_nan : Dbl.dblLowest ≠ Dbl.nan := by simp [Dbl.dblLowest]

theorem fallback_facts :
    (Dbl.ofInt 0).fle Dbl.dblMax = true ∧ (Dbl.ofInt (-1000)).fle Dbl.dblMax = true ∧
    Dbl.dblLowest.fle (Dbl.ofInt 1) = true ∧ Dbl.dblLowest.fle (Dbl.ofInt 1000) = true ∧
    (Dbl.ofInt 0).fle (Dbl.ofInt 1) = true ∧
    (Dbl.ofInt (-1000)).fle (Dbl.ofInt 1000) = true := by
  decide!

/-- The adjusted pair is never inverted. -/
theorem adjusted_not_inverted (vs : List Dbl) (lo hi : Dbl)
    (hlo : lo.fle Dbl.dblMax = true) (hhi : Dbl.dblLowest.fle hi = true)
    (hlh : lo.fle hi = true) :
    (if (vs.foldl stdMin Dbl.dblMax).feq Dbl.dblMax then lo
      else vs.foldl stdMin Dbl.dblMax).fle
    (if (vs.foldl stdMax Dbl.dblLowest).feq Dbl.dblLowest then hi
      else vs.foldl stdMax Dbl.dblLowest) = true := by
  have hm := foldl_stdMin_ne_nan vs _ dblMax_ne_nan
  have hM := foldl_stdMax_ne_nan vs _ dblLowest_ne_nan
  by_cases h1 : (vs.foldl stdMin Dbl.dblMax).feq Dbl.dblMax = true
  · by_cases h2 : (vs.foldl stdMax Dbl.dblLowest).feq Dbl.dblLowest = true
    · simp [h1, h2, hlh]
    · simp only [h1, h2, if_true]
      rcases foldl_stdMax_eq_or_mem vs Dbl.dblLowest with h | h
      · rw [h] at h2; exact absurd feq_dblLowest_self h2
      · have := foldl_stdMin_fle_mem vs _ dblMax_ne_nan _ h hM
        rw [Dbl.eq_dblMax_of_feq h1] at this
        exact Dbl.fle_trans hlo this
  · rcases foldl_stdMin_eq_or_mem vs Dbl.dblMax with h | h
    · rw [h] at h1; exact absurd feq_dblMax_self h1
    · have hle := fle_foldl_stdMax_mem vs _ dblLowest_ne_nan _ h hm
      by_cases h2 : (vs.foldl stdMax Dbl.dblLowest).feq Dbl.dblLowest = true
      · simp only [h1, h2, if_true]
        rw [Dbl.eq_dblLowest_of_feq h2] at hle
        exact Dbl.fle_trans hle hhi
      · simp only [h1, h2]
        exact hle

/-- The adjusted minimum is below every value that is not NaN. -/
theorem adjusted_min_fle (vs : List Dbl) (lo : Dbl) (hlo : lo.fle Dbl.dblMax = true)
    (v : Dbl) (hv : v ∈ vs) (hn : v ≠ Dbl.nan) :
    (if (vs.foldl stdMin Dbl.dblMax).feq Dbl.dblMax then lo
      else vs.foldl stdMin Dbl.dblMax).fle v = true := by
  have hle := foldl_stdMin_fle_mem vs _ dblMax_ne_nan v hv hn
  by_cases h1 : (vs.foldl stdMin Dbl.dblMax).feq Dbl.dblMax = true
  · simp only [h1, if_true]
    rw [Dbl.eq_dblMax_of_feq h1] at hle
    exact Dbl.fle_trans hlo hle
  · simp only [h1]
    exact hle

/-- The adjusted maximum is above every value that is not NaN. -/
theorem fle_adjusted_max (vs : List Dbl) (hi : Dbl) (hhi : Dbl.dblLowest.fle hi = true)
    (v : Dbl) (hv : v ∈ vs) (hn : v ≠ Dbl.nan) :
    v.fle (if (vs.foldl stdMax Dbl.dblLowest).feq Dbl.dblLowest then hi
      else vs.foldl stdMax Dbl.dblLowest) = true := by
  have hle := fle_foldl_stdMax_mem vs _ dblLowest_ne_nan v hv hn
  by_cases h1 : (vs.foldl stdMax Dbl.dblLowest).feq Dbl.dblLowest = true
  · simp only [h1, if_true]
    rw [Dbl.eq_dblLowest_of_feq h1] at hle
    exact Dbl.fle_trans hle hhi
  · simp only [h1]
    exact hle

/-- The adjusted ranges of a finite stream, field by field. -/
theorem adjust_scan_stream (GeV : Dbl) (s : List Event) :
    adjustRanges (s.foldl (scanEvent GeV) initRanges) =
      { minEnergy := if ((muonEnergies GeV s).foldl stdMin Dbl.dblMax).feq Dbl.dblMax
          then Dbl.ofInt 0 else (muonEnergies GeV s).foldl stdMin Dbl.dblMax,
        maxEnergy := if ((muonEnergies GeV s).foldl stdMax Dbl.dblLowest).feq Dbl.dblLowest
          then Dbl.ofInt 1 else (muonEnergies GeV s).foldl stdMax Dbl.dblLowest,
        minX := if ((muonXs s).foldl stdMin Dbl.dblMax).feq Dbl.dblMax
          then Dbl.ofInt (-1000) else (muonXs s).foldl stdMin Dbl.dblMax,
        maxX := if ((muonXs s).foldl stdMax Dbl.dblLowest).feq Dbl.dblLowest
          then Dbl.ofInt 1000 else (muonXs s).foldl stdMax Dbl.dblLowest,
        minY := if ((muonYs s).foldl stdMin Dbl.dblMax).feq Dbl.dblMax
          then Dbl.ofInt (-1000) else (muonYs s).foldl stdMin Dbl.dblMax,
        maxY := if ((muonYs s).foldl stdMax Dbl.dblLowest).feq Dbl.dblLowest
          then Dbl.ofInt 1000 else (muonYs s).foldl stdMax Dbl.dblLowest } := by
  rw [scan_stream]
  rfl

/-! ## The claims -/

/-- C1 (as amended): for every finite event stream with at most 2147483647 qualifying
particles, the muon count after the fill pass (and in the printed summary) is
the number of particles, over all events, whose type code is 13 or -13; a
particle with another type code leaves the count unchanged. -/
theorem C1_muonCount (GeV : Dbl) (s : List Event) (fuel : Nat) (hfuel : s.length < fuel)
    (hbound : countMuons s ≤ 2147483647) :
    (∃ a, analyse GeV (ofList s) fuel = some a ∧
        main GeV 2 (some (ofList s)) fuel = some (0, some (summary a)) ∧
        a.result.muonCount = (countMuons s : Int) ∧
        (summary a).muons = (countMuons s : Int)) ∧
    (∀ (st : FillState) (it : Particle), it.pdgCode ≠ 13 → it.pdgCode ≠ -13 →
        (fillParticle GeV st it).muonCount = st.muonCount) := by
  have hw : wrapInt32 (countMuons s : Int) = (countMuons s : Int) :=
    wrapInt32_of_bounds (by omega) (by omega)
  refine ⟨⟨_, analyse_ofList GeV s fuel hfuel, ?_, ?_, ?_⟩, ?_⟩
  · simp [main, analyse_ofList GeV s fuel hfuel]
  · simp only [fill_stream_init, hw]
  · simp only [summary, fill_stream_init, hw]
  · intro st it h1 h2
    simp [fillParticle, isMuon, h1, h2]

/-- C1 (as amended) at the scenario stream. -/
theorem C1_muonCount_witness :
    (scenario.length < 2 ∧ countMuons scenario ≤ 2147483647) ∧
    ((∃ a, analyse (Dbl.ofInt 1) (ofList scenario) 2 = some a ∧
        main (Dbl.ofInt 1) 2 (some (ofList scenario)) 2 = some (0, some (summary a)) ∧
        a.result.muonCount = (countMuons scenario : Int) ∧
        (summary a).muons = (countMuons scenario : Int)) ∧
    (∀ (st : FillState) (it : Particle), it.pdgCode ≠ 13 → it.pdgCode ≠ -13 →
        (fillParticle (Dbl.ofInt 1) st it).muonCount = st.muonCount)) :=
  ⟨by decide, C1_muonCount (Dbl.ofInt 1) scenario 2 (by decide) (by decide)⟩

/-- C1 (as stated) fails: on a stream of 2147483648 muons the 32-bit counter has
wrapped around and the muon count after the fill pass is -2147483648. -/
theorem C1_counterexample :
    (countMuons manyMuons : Int) = 2147483648 ∧
    (∃ a, analyse (Dbl.ofInt 1) (ofList manyMuons) 2 = some a ∧
      a.result.muonCount = -2147483648) ∧
    ¬ MuonCountClaim (Dbl.ofInt 1) manyMuons 2 := by
  have hlen : manyMuons.length < 2 := by decide
  have hc : countMuons manyMuons = 2147483648 := countMuons_replicate 2147483648 _ (by decide)
  have hw : wrapInt32 ((2147483648 : Nat) : Int) = -2147483648 := by decide
  have ha := analyse_ofList (Dbl.ofInt 1) manyMuons 2 hlen
  refine ⟨by rw [hc]; rfl, ⟨_, ha, ?_⟩, ?_⟩
  · simp only [fill_stream_init, hc, hw]
  · rintro ⟨a, h1, h2⟩
    rw [ha] at h1
    obtain rfl := Option.some.inj h1
    simp only [fill_stream_init, hc, hw] at h2
    omega

/-- C2 (as amended): for every finite event stream with at most 2147483647 particles,
the total particle count after the fill pass (and in the printed summary) is
the sum over all events of the length of the particle sequence; every
particle, qualifying or not, adds one to a counter below 2147483647. -/
theorem C2_totalParticles (GeV : Dbl) (s : List Event) (fuel : Nat) (hfuel : s.length < fuel)
    (hbound : countParticles s ≤ 2147483647) :
    (∃ a, analyse GeV (ofList s) fuel = some a ∧
        main GeV 2 (some (ofList s)) fuel = some (0, some (summary a)) ∧
        a.result.totalParticles = (countParticles s : Int) ∧
        (summary a).totalParticles = (countParticles s : Int)) ∧
    (∀ (st : FillState) (it : Particle),
        -2147483648 ≤ st.totalParticles → st.totalParticles < 2147483647 →
        (fillParticle GeV st it).totalParticles = st.totalParticles + 1) := by
  have hw : wrapInt32 (countParticles s : Int) = (countParticles s : Int) :=
    wrapInt32_of_bounds (by omega) (by omega)
  refine ⟨⟨_, analyse_ofList GeV s fuel hfuel, ?_, ?_, ?_⟩, ?_⟩
  · simp [main, analyse_ofList GeV s fuel hfuel]
  · simp only [fill_stream_init, hw]
  · simp only [summary, fill_stream_init, hw]
  · intro st it h1 h2
    have hw1 : wrapInt32 (st.totalParticles + 1) = st.totalParticles + 1 :=
      wrapInt32_of_bounds (by omega) (by omega)
    by_cases h : isMuon it = true <;> simp [fillParticle, h, hw1]

/-- C2 (as amended) at the scenario stream. -/
theorem C2_totalParticles_witness :
    (scenario.length < 2 ∧ countParticles scenario ≤ 2147483647) ∧
    ((∃ a, analyse (Dbl.ofInt 1) (ofList scenario) 2 = some a ∧
        main (Dbl.ofInt 1) 2 (some (ofList scenario)) 2 = some (0, some (summary a)) ∧
        a.result.totalParticles = (countParticles scenario : Int) ∧
        (summary a).totalParticles = (countParticles scenario : Int)) ∧
    (∀ (st : FillState) (it : Particle),
        -2147483648 ≤ st.totalParticles → st.totalParticles < 2147483647 →
        (fillParticle (Dbl.ofInt 1) st it).totalParticles = st.totalParticles + 1)) :=
  ⟨by decide, C2_totalParticles (Dbl.ofInt 1) scenario 2 (by decide) (by decide)⟩

/-- C2 (as stated) fails: on a stream of 2147483648 particles the 32-bit counter
has wrapped around and the total after the fill pass is -2147483648. -/
theorem C2_counterexample :
    (countParticles manyMuons : Int) = 2147483648 ∧
    (∃ a, analyse (Dbl.ofInt 1) (ofList manyMuons) 2 = some a ∧
      a.result.totalParticles = -2147483648) ∧
    ¬ TotalParticlesClaim (Dbl.ofInt 1) manyMuons 2 := by
  have hlen : manyMuons.length < 2 := by decide
  have hc : countParticles manyMuons = 2147483648 := countParticles_replicate 2147483648 _
  have hw : wrapInt32 ((2147483648 : Nat) : Int) = -2147483648 := by decide
  have ha := analyse_ofList (Dbl.ofInt 1) manyMuons 2 hlen
  refine ⟨by rw [hc]; rfl, ⟨_, ha, ?_⟩, ?_⟩
  · simp only [fill_stream_init, hc, hw]
  · rintro ⟨a, h1, h2⟩
    rw [ha] at h1
    obtain rfl := Option.some.inj h1
    simp only [fill_stream_init, hc, hw] at h2
    omega

/-- C3: the code breaks the claim. On a stream of one muon with `fX = +inf` the
scan leaves `minX` at the sentinel (`std::min(max(), +inf)` is `max()`), and
line 68 overwrites it with -1000 although a muon was seen: the run returns the
X range (-1000, +inf), where the least qualifying `fX` is `+inf`. The same
happens to `minEnergy` and `maxY` on a muon with energy
`numeric_limits<double>::max()` and `fY = -inf`, and to the X range on a muon
with `fX = NaN`. -/
theorem C3_fallback_overwrites_scanned_bound :
    scanLoop (Dbl.ofInt 1) (ofList infStream) 2 1 initRanges =
      some { minEnergy := Dbl.ofInt 5, maxEnergy := Dbl.ofInt 5,
             minX := Dbl.dblMax, maxX := Dbl.pinf,
             minY := Dbl.ofInt 20, maxY := Dbl.ofInt 20 } ∧
    (analyse (Dbl.ofInt 1) (ofList infStream) 2).map (fun a => a.ranges) =
      some { minEnergy := Dbl.ofInt 5, maxEnergy := Dbl.ofInt 5,
             minX := Dbl.ofInt (-1000), maxX := Dbl.pinf,
             minY := Dbl.ofInt 20, maxY := Dbl.ofInt 20 } ∧
    muonXs infStream = [Dbl.pinf] ∧
    ¬ RangeScanClaim (Dbl.ofInt 1) infStream 2 ∧
    ¬ RangeScanClaim (Dbl.ofInt 1) sentinelStream 2 ∧
    ¬ RangeScanClaim (Dbl.ofInt 1) nanStream 2 := by
  have h0 : (analyse (Dbl.ofInt 1) (ofList infStream) 2).map (fun a => a.ranges) =
      some { minEnergy := Dbl.ofInt 5, maxEnergy := Dbl.ofInt 5,
             minX := Dbl.ofInt (-1000), maxX := Dbl.pinf,
             minY := Dbl.ofInt 20, maxY := Dbl.ofInt 20 } := by
    decide!
  have h1 : (analyse (Dbl.ofInt 1) (ofList sentinelStream) 2).map (fun a => a.ranges) =
      some { minEnergy := Dbl.ofInt 0, maxEnergy := Dbl.dblMax,
             minX := Dbl.ofInt (-1000), maxX := Dbl.pinf,
             minY := Dbl.ninf, maxY := Dbl.ofInt 1000 } := by
    decide!
  have h2 : (analyse (Dbl.ofInt 1) (ofList nanStream) 2).map (fun a => a.ranges) =
      some { minEnergy := Dbl.ofInt 5, maxEnergy := Dbl.ofInt 5,
             minX := Dbl.ofInt (-1000), maxX := Dbl.ofInt 1000,
             minY := Dbl.ofInt 20, maxY := Dbl.ofInt 20 } := by
    decide!
  refine ⟨by decide!, h0, by decide, ?_, ?_, ?_⟩
  · intro h
    obtain ⟨a, ha, hext⟩ := h (by decide)
    rw [ha] at h0
    simp only [Option.map_some', Option.some.injEq] at h0
    rw [h0] at hext
    revert hext
    decide!
  · intro h
    obtain ⟨a, ha, hext⟩ := h (by decide)
    rw [ha] at h1
    simp only [Option.map_some', Option.some.injEq] at h1
    rw [h1] at hext
    revert hext
    decide!
  · intro h
    obtain ⟨a, ha, hext⟩ := h (by decide)
    rw [ha] at h2
    simp only [Option.map_some', Option.some.injEq] at h2
    rw [h2] at hext
    revert hext
    decide!

/-- C4: for every finite event stream without a particle of type code 13 or -13 (the
empty stream included) the energy range is exactly (0, 1) and the X and Y ranges
are exactly (-1000, 1000), and the histograms are built over these ranges. -/
theorem C4_fallback_ranges (GeV : Dbl) (s : List Event) (fuel : Nat)
    (hfuel : s.length < fuel)
    (hnone : ∀ ev ∈ s, ∀ it ∈ ev, it.pdgCode ≠ 13 ∧ it.pdgCode ≠ -13) :
    ∃ a, analyse GeV (ofList s) fuel = some a ∧
      a.ranges = { minEnergy := Dbl.ofInt 0, maxEnergy := Dbl.ofInt 1,
                   minX := Dbl.ofInt (-1000), maxX := Dbl.ofInt 1000,
                   minY := Dbl.ofInt (-1000), maxY := Dbl.ofInt 1000 } ∧
      (a.result.hMuonEnergy.xlow, a.result.hMuonEnergy.xup) = (Dbl.ofInt 0, Dbl.ofInt 1) ∧
      (a.result.hMuonPosition.xlow, a.result.hMuonPosition.xup) =
        (Dbl.ofInt (-1000), Dbl.ofInt 1000) ∧
      (a.result.hMuonPosition.ylow, a.result.hMuonPosition.yup) =
        (Dbl.ofInt (-1000), Dbl.ofInt 1000) := by
  have hm : muonsOf s = [] := by
    simp only [muonsOf, particlesOf, List.filter_eq_nil_iff, List.mem_flatten]
    rintro it ⟨ev, hev, hit⟩
    have := hnone ev hev it hit
    simp [isMuon, this.1, this.2]
  have hr : adjustRanges (s.foldl (scanEvent GeV) initRanges) =
      { minEnergy := Dbl.ofInt 0, maxEnergy := Dbl.ofInt 1,
        minX := Dbl.ofInt (-1000), maxX := Dbl.ofInt 1000,
        minY := Dbl.ofInt (-1000), maxY := Dbl.ofInt 1000 } := by
    rw [adjust_scan_stream]
    simp [muonEnergies, muonXs, muonYs, hm, feq_dblMax_self, feq_dblLowest_self]
  refine ⟨_, analyse_ofList GeV s fuel hfuel, hr, ?_⟩
  simp [hr, fill_stream_init]

/-- C4 at a stream of an electron, a photon and an empty event. -/
theorem C4_fallback_ranges_witness :
    (noMuonStream.length < 3 ∧
      ∀ ev ∈ noMuonStream, ∀ it ∈ ev, it.pdgCode ≠ 13 ∧ it.pdgCode ≠ -13) ∧
    ∃ a, analyse (Dbl.ofInt 1) (ofList noMuonStream) 3 = some a ∧
      a.ranges = { minEnergy := Dbl.ofInt 0, maxEnergy := Dbl.ofInt 1,
                   minX := Dbl.ofInt (-1000), maxX := Dbl.ofInt 1000,
                   minY := Dbl.ofInt (-1000), maxY := Dbl.ofInt 1000 } ∧
      (a.result.hMuonEnergy.xlow, a.result.hMuonEnergy.xup) = (Dbl.ofInt 0, Dbl.ofInt 1) ∧
      (a.result.hMuonPosition.xlow, a.result.hMuonPosition.xup) =
        (Dbl.ofInt (-1000), Dbl.ofInt 1000) ∧
      (a.result.hMuonPosition.ylow, a.result.hMuonPosition.yup) =
        (Dbl.ofInt (-1000), Dbl.ofInt 1000) :=
  ⟨by decide, C4_fallback_ranges (Dbl.ofInt 1) noMuonStream 3 (by decide) (by decide)⟩

/-- C5 (as amended): for every finite event stream with at most 2147483647 qualifying
particles, after the fill pass both histograms have exactly `muonCount`
entries: each received one `Fill` per qualifying particle, in stream order,
and none for any other particle. -/
theorem C5_entries (GeV : Dbl) (s : List Event) (fuel : Nat) (hfuel : s.length < fuel)
    (hbound : countMuons s ≤ 2147483647) :
    ∃ a, analyse GeV (ofList s) fuel = some a ∧
      (a.result.hMuonEnergy.GetEntries : Int) = a.result.muonCount ∧
      (a.result.hMuonPosition.GetEntries : Int) = a.result.muonCount ∧
      ((summary a).energyEntries : Int) = (summary a).muons ∧
      ((summary a).positionEntries : Int) = (summary a).muons ∧
      a.result.hMuonEnergy.fills = (muonsOf s).map (fun it => it.kineticEnergy.div GeV) ∧
      a.result.hMuonPosition.fills = (muonsOf s).map (fun it => (it.fX, it.fY)) := by
  have hw : wrapInt32 (countMuons s : Int) = (countMuons s : Int) :=
    wrapInt32_of_bounds (by omega) (by omega)
  refine ⟨_, analyse_ofList GeV s fuel hfuel, ?_⟩
  simp only [summary, fill_stream_init, hw, TH1F.GetEntries, TH2F.GetEntries, muonEnergies,
    List.length_map, length_muonsOf, true_and]
  exact ⟨rfl, trivial⟩

/-- C5 (as amended) at the scenario stream. -/
theorem C5_entries_witness :
    (scenario.length < 2 ∧ countMuons scenario ≤ 2147483647) ∧
    ∃ a, analyse (Dbl.ofInt 1) (ofList scenario) 2 = some a ∧
      (a.result.hMuonEnergy.GetEntries : Int) = a.result.muonCount ∧
      (a.result.hMuonPosition.GetEntries : Int) = a.result.muonCount ∧
      ((summary a).energyEntries : Int) = (summary a).muons ∧
      ((summary a).positionEntries : Int) = (summary a).muons ∧
      a.result.hMuonEnergy.fills =
        (muonsOf scenario).map (fun it => it.kineticEnergy.div (Dbl.ofInt 1)) ∧
      a.result.hMuonPosition.fills = (muonsOf scenario).map (fun it => (it.fX, it.fY)) :=
  ⟨by decide, C5_entries (Dbl.ofInt 1) scenario 2 (by decide) (by decide)⟩

/-- C5 (as stated) fails: on a stream of 2147483648 muons each histogram has
received 2147483648 `Fill` calls while the 32-bit muon count is -2147483648. -/
theorem C5_counterexample :
    (∃ a, analyse (Dbl.ofInt 1) (ofList manyMuons) 2 = some a ∧
      a.result.hMuonEnergy.GetEntries = 2147483648 ∧
      a.result.hMuonPosition.GetEntries = 2147483648 ∧
      a.result.muonCount = -2147483648) ∧
    ¬ EntriesClaim (Dbl.ofInt 1) manyMuons 2 := by
  have hlen : manyMuons.length < 2 := by decide
  have hc : countMuons manyMuons = 2147483648 := countMuons_replicate 2147483648 _ (by decide)
  have hw : wrapInt32 ((2147483648 : Nat) : Int) = -2147483648 := by decide
  have ha := analyse_ofList (Dbl.ofInt 1) manyMuons 2 hlen
  have hE : (manyMuons.foldl (fillEvent (Dbl.ofInt 1)) (initFill (adjustRanges
      (manyMuons.foldl (scanEvent (Dbl.ofInt 1)) initRanges)))).hMuonEnergy.GetEntries =
      2147483648 := by
    simp only [fill_stream_init, TH1F.GetEntries, muonEnergies, List.length_map,
      length_muonsOf, hc]
  have hP : (manyMuons.foldl (fillEvent (Dbl.ofInt 1)) (initFill (adjustRanges
      (manyMuons.foldl (scanEvent (Dbl.ofInt 1)) initRanges)))).hMuonPosition.GetEntries =
      2147483648 := by
    simp only [fill_stream_init, TH2F.GetEntries, List.length_map, length_muonsOf, hc]
  have hM : (manyMuons.foldl (fillEvent (Dbl.ofInt 1)) (initFill (adjustRanges
      (manyMuons.foldl (scanEvent (Dbl.ofInt 1)) initRanges)))).muonCount = -2147483648 := by
    simp only [fill_stream_init, hc, hw]
  refine ⟨⟨_, ha, hE, hP, hM⟩, ?_⟩
  rintro ⟨a, h1, h2, _⟩
  rw [ha] at h1
  obtain rfl := Option.some.inj h1
  rw [hM] at h2
  have h3 := congrArg Int.toNat h2
  rw [Int.toNat_ofNat, hE] at h3
  revert h3
  decide

/-- C6: for every finite event stream, the energy sum after the fill pass is the sum,
taken with the `double` addition in stream order from 0, of `KineticEnergy()/GeV`
over the qualifying particles; the same quotient is what the energy histogram
is filled with, and what the range scan folds `std::min` / `std::max` over
before the adjustment. -/
theorem C6_energy_sum (GeV : Dbl) (s : List Event) (fuel : Nat) (hfuel : s.length < fuel) :
    ∃ a, analyse GeV (ofList s) fuel = some a ∧
      a.result.muonEnergySum =
        (muonsOf s).foldl (fun sum it => sum.add (it.kineticEnergy.div GeV)) (Dbl.ofInt 0) ∧
      a.result.hMuonEnergy.fills = (muonsOf s).map (fun it => it.kineticEnergy.div GeV) ∧
      ∃ r0, scanLoop GeV (ofList s) fuel 1 initRanges = some r0 ∧ a.ranges = adjustRanges r0 ∧
        r0.minEnergy =
          ((muonsOf s).map (fun it => it.kineticEnergy.div GeV)).foldl stdMin Dbl.dblMax ∧
        r0.maxEnergy =
          ((muonsOf s).map (fun it => it.kineticEnergy.div GeV)).foldl stdMax Dbl.dblLowest := by
  refine ⟨_, analyse_ofList GeV s fuel hfuel, ?_, ?_, _, ?_, rfl, ?_, ?_⟩
  · simp only [fill_stream_init, muonEnergies, List.foldl_map, energyOf]
  · simp only [fill_stream_init, muonEnergies]
    rfl
  · rw [scanLoop_eq_eventLoop]
    exact eventLoop_of_get (scanEvent GeV) (ofList s) s fuel 1 initRanges
      (fun i _ => ofList_get s i) hfuel
  · simp only [scan_stream, initRanges, muonEnergies]
    rfl
  · simp only [scan_stream, initRanges, muonEnergies]
    rfl

/-- C6 at the scenario stream. -/
theorem C6_energy_sum_witness :
    scenario.length < 2 ∧
    ∃ a, analyse (Dbl.ofInt 1) (ofList scenario) 2 = some a ∧
      a.result.muonEnergySum =
        (muonsOf scenario).foldl
          (fun sum it => sum.add (it.kineticEnergy.div (Dbl.ofInt 1))) (Dbl.ofInt 0) ∧
      a.result.hMuonEnergy.fills =
        (muonsOf scenario).map (fun it => it.kineticEnergy.div (Dbl.ofInt 1)) ∧
      ∃ r0, scanLoop (Dbl.ofInt 1) (ofList scenario) 2 1 initRanges = some r0 ∧
        a.ranges = adjustRanges r0 ∧
        r0.minEnergy =
          ((muonsOf scenario).map (fun it => it.kineticEnergy.div (Dbl.ofInt 1))).foldl
            stdMin Dbl.dblMax ∧
        r0.maxEnergy =
          ((muonsOf scenario).map (fun it => it.kineticEnergy.div (Dbl.ofInt 1))).foldl
            stdMax Dbl.dblLowest :=
  ⟨by decide, C6_energy_sum (Dbl.ofInt 1) scenario 2 (by decide)⟩

/-- C7: on the scenario stream with `GeV = 1` the run exits with code 0 and yields
totalParticles = 3, muonCount = 2, muonEnergySum = 8.0, the energy range
(3.0, 5.0), the X range (-5, 10), the Y range (0, 20), and 2 entries in each
histogram. -/
theorem C7_scenario :
    (analyse (Dbl.ofInt 1) (ofList scenario) 2).map (fun a => (a.ranges, summary a)) =
      some ({ minEnergy := Dbl.ofInt 3, maxEnergy := Dbl.ofInt 5,
              minX := Dbl.ofInt (-5), maxX := Dbl.ofInt 10,
              minY := Dbl.ofInt 0, maxY := Dbl.ofInt 20 },
            { totalParticles := 3, muons := 2, totalMuonEnergy := Dbl.ofInt 8,
              energyEntries := 2, positionEntries := 2 }) ∧
    main (Dbl.ofInt 1) 2 (some (ofList scenario)) 2 =
      some (0, some { totalParticles := 3, muons := 2, totalMuonEnergy := Dbl.ofInt 8,
                      energyEntries := 2, positionEntries := 2 }) := by
  decide!

/-- C8: for every finite event stream, with or without qualifying particles, the
ranges after the scan and the adjustment are not inverted, and they are the
limits the two histograms are built with. -/
theorem C8_not_inverted (GeV : Dbl) (s : List Event) (fuel : Nat) (hfuel : s.length < fuel) :
    ∃ a, analyse GeV (ofList s) fuel = some a ∧
      a.ranges.minEnergy.fle a.ranges.maxEnergy = true ∧
      a.ranges.minX.fle a.ranges.maxX = true ∧
      a.ranges.minY.fle a.ranges.maxY = true ∧
      (a.result.hMuonEnergy.xlow, a.result.hMuonEnergy.xup) =
        (a.ranges.minEnergy, a.ranges.maxEnergy) ∧
      (a.result.hMuonPosition.xlow, a.result.hMuonPosition.xup) =
        (a.ranges.minX, a.ranges.maxX) ∧
      (a.result.hMuonPosition.ylow, a.result.hMuonPosition.yup) =
        (a.ranges.minY, a.ranges.maxY) := by
  obtain ⟨f1, f2, f3, f4, f5, f6⟩ := fallback_facts
  refine ⟨_, analyse_ofList GeV s fuel hfuel, ?_, ?_, ?_, ?_⟩
  · simp only [adjust_scan_stream]
    exact adjusted_not_inverted _ _ _ f1 f3 f5
  · simp only [adjust_scan_stream]
    exact adjusted_not_inverted _ _ _ f2 f4 f6
  · simp only [adjust_scan_stream]
    exact adjusted_not_inverted _ _ _ f2 f4 f6
  · simp [fill_stream_init]

/-- C8 at the stream whose muon sits on the sentinels. -/
theorem C8_not_inverted_witness :
    sentinelStream.length < 2 ∧
    ∃ a, analyse (Dbl.ofInt 1) (ofList sentinelStream) 2 = some a ∧
      a.ranges.minEnergy.fle a.ranges.maxEnergy = true ∧
      a.ranges.minX.fle a.ranges.maxX = true ∧
      a.ranges.minY.fle a.ranges.maxY = true ∧
      (a.result.hMuonEnergy.xlow, a.result.hMuonEnergy.xup) =
        (a.ranges.minEnergy, a.ranges.maxEnergy) ∧
      (a.result.hMuonPosition.xlow, a.result.hMuonPosition.xup) =
        (a.ranges.minX, a.ranges.maxX) ∧
      (a.result.hMuonPosition.ylow, a.result.hMuonPosition.yup) =
        (a.ranges.minY, a.ranges.maxY) :=
  ⟨by decide, C8_not_inverted (Dbl.ofInt 1) sentinelStream 2 (by decide)⟩

/-- C9 (as amended): for every finite event stream and every qualifying particle in it,
each of the values filled in the second pass that is not NaN lies inside the
range the first pass computed for it; these ranges are the limits of the
histograms, so every value in a histogram's `Fill` log that is not NaN lies
inside that histogram's limits. -/
theorem C9_filled_inside (GeV : Dbl) (s : List Event) (fuel : Nat) (hfuel : s.length < fuel) :
    ∃ a, analyse GeV (ofList s) fuel = some a ∧
      (∀ it ∈ muonsOf s, FilledInsideUnlessNaN GeV a.ranges it) ∧
      (∀ e ∈ a.result.hMuonEnergy.fills, e ≠ Dbl.nan →
        a.result.hMuonEnergy.xlow.fle e = true ∧ e.fle a.result.hMuonEnergy.xup = true) ∧
      (∀ p ∈ a.result.hMuonPosition.fills,
        (p.1 ≠ Dbl.nan →
          a.result.hMuonPosition.xlow.fle p.1 = true ∧
          p.1.fle a.result.hMuonPosition.xup = true) ∧
        (p.2 ≠ Dbl.nan →
          a.result.hMuonPosition.ylow.fle p.2 = true ∧
          p.2.fle a.result.hMuonPosition.yup = true)) := by
  obtain ⟨f1, f2, f3, f4, _, _⟩ := fallback_facts
  have hin : ∀ it ∈ muonsOf s, FilledInsideUnlessNaN GeV
      (adjustRanges (s.foldl (scanEvent GeV) initRanges)) it := by
    intro it hit
    have hE : energyOf GeV it ∈ muonEnergies GeV s := List.mem_map_of_mem _ hit
    have hX : it.fX ∈ muonXs s := List.mem_map_of_mem (fun it => it.fX) hit
    have hY : it.fY ∈ muonYs s := List.mem_map_of_mem (fun it => it.fY) hit
    simp only [FilledInsideUnlessNaN, adjust_scan_stream]
    exact ⟨fun h => ⟨adjusted_min_fle _ _ f1 _ hE h, fle_adjusted_max _ _ f3 _ hE h⟩,
      fun h => ⟨adjusted_min_fle _ _ f2 _ hX h, fle_adjusted_max _ _ f4 _ hX h⟩,
      fun h => ⟨adjusted_min_fle _ _ f2 _ hY h, fle_adjusted_max _ _ f4 _ hY h⟩⟩
  refine ⟨_, analyse_ofList GeV s fuel hfuel, hin, ?_, ?_⟩
  · intro e he hn
    simp only [fill_stream_init, muonEnergies, List.mem_map] at he
    obtain ⟨it, hit, rfl⟩ := he
    simpa [fill_stream_init] using (hin it hit).1 hn
  · intro p hp
    simp only [fill_stream_init, List.mem_map] at hp
    obtain ⟨it, hit, rfl⟩ := hp
    simpa [fill_stream_init] using (hin it hit).2

/-- C9 (as amended) at the stream whose muon has `fX = NaN`. -/
theorem C9_filled_inside_witness :
    nanStream.length < 2 ∧
    ∃ a, analyse (Dbl.ofInt 1) (ofList nanStream) 2 = some a ∧
      (∀ it ∈ muonsOf nanStream, FilledInsideUnlessNaN (Dbl.ofInt 1) a.ranges it) ∧
      (∀ e ∈ a.result.hMuonEnergy.fills, e ≠ Dbl.nan →
        a.result.hMuonEnergy.xlow.fle e = true ∧ e.fle a.result.hMuonEnergy.xup = true) ∧
      (∀ p ∈ a.result.hMuonPosition.fills,
        (p.1 ≠ Dbl.nan →
          a.result.hMuonPosition.xlow.fle p.1 = true ∧
          p.1.fle a.result.hMuonPosition.xup = true) ∧
        (p.2 ≠ Dbl.nan →
          a.result.hMuonPosition.ylow.fle p.2 = true ∧
          p.2.fle a.result.hMuonPosition.yup = true)) :=
  ⟨by decide, C9_filled_inside (Dbl.ofInt 1) nanStream 2 (by decide)⟩

/-- C9 (as stated) fails: on a stream of one muon with `fX = NaN` the X range is
(-1000, 1000) and the filled `fX` is not inside it. -/
theorem C9_counterexample :
    (analyse (Dbl.ofInt 1) (ofList nanStream) 2).map (fun a => a.ranges) =
      some { minEnergy := Dbl.ofInt 5, maxEnergy := Dbl.ofInt 5,
             minX := Dbl.ofInt (-1000), maxX := Dbl.ofInt 1000,
             minY := Dbl.ofInt 20, maxY := Dbl.ofInt 20 } ∧
    ¬ FilledInsideClaim (Dbl.ofInt 1) nanStream 2 := by
  have h2 : (analyse (Dbl.ofInt 1) (ofList nanStream) 2).map (fun a => a.ranges) =
      some { minEnergy := Dbl.ofInt 5, maxEnergy := Dbl.ofInt 5,
             minX := Dbl.ofInt (-1000), maxX := Dbl.ofInt 1000,
             minY := Dbl.ofInt 20, maxY := Dbl.ofInt 20 } := by
    decide!
  refine ⟨h2, ?_⟩
  rintro ⟨a, ha, hin⟩
  rw [ha] at h2
  simp only [Option.map_some', Option.some.injEq] at h2
  rw [h2] at hin
  revert hin
  decide!

/-- C10: when `k ≥ 1` is the least index whose lookup is not a success, each pass
(given `k` units of fuel) processes the events found at `1, ..., k - 1` in
increasing order and stops; the run then prints the summary and exits with
code 0; both passes fold over the same events; and a source that differs only
at indices beyond `k` gives the same result. -/
theorem C10_stops_at_first_failure (GeV : Dbl) (file : ShowerFile) (k fuel : Nat)
    (hk : 1 ≤ k) (hfound : ∀ i, 1 ≤ i → i < k → (file i).isSome = true)
    (hstop : file k = none) (hfuel : k ≤ fuel) :
    scanLoop GeV file fuel 1 initRanges =
      some ((eventsBefore file k).foldl (scanEvent GeV) initRanges) ∧
    (∀ st, fillLoop GeV file fuel 1 st =
      some ((eventsBefore file k).foldl (fillEvent GeV) st)) ∧
    (∃ a, analyse GeV file fuel = some a ∧
      a.ranges = adjustRanges ((eventsBefore file k).foldl (scanEvent GeV) initRanges) ∧
      a.result = (eventsBefore file k).foldl (fillEvent GeV) (initFill a.ranges) ∧
      main GeV 2 (some file) fuel = some (0, some (summary a))) ∧
    (∀ file' : ShowerFile, (∀ i, 1 ≤ i → i ≤ k → file' i = file i) →
      analyse GeV file' fuel = analyse GeV file fuel ∧
      main GeV 2 (some file') fuel = main GeV 2 (some file) fuel) := by
  have key : ∀ (f : ShowerFile), (∀ i, 1 ≤ i → i ≤ k → f i = file i) →
      (∀ r, scanLoop GeV f fuel 1 r = some ((eventsBefore file k).foldl (scanEvent GeV) r)) ∧
      (∀ st, fillLoop GeV f fuel 1 st =
        some ((eventsBefore file k).foldl (fillEvent GeV) st)) := by
    intro f hf
    have hev : eventsBefore f k = eventsBefore file k := by
      unfold eventsBefore
      apply List.filterMap_congr
      intro i hi
      rw [List.mem_range'_1] at hi
      exact hf i hi.1 (by omega)
    have hfound' : ∀ i, 1 ≤ i → i < 1 + (k - 1) → (f i).isSome = true := by
      intro i h1 h2
      rw [hf i h1 (by omega)]
      exact hfound i h1 (by omega)
    have hstop' : f (1 + (k - 1)) = none := by
      have : 1 + (k - 1) = k := by omega
      rw [this, hf k hk (Nat.le_refl _)]
      exact hstop
    constructor
    · intro r
      rw [scanLoop_eq_eventLoop, ← hev]
      exact eventLoop_of_least (scanEvent GeV) f (k - 1) fuel 1 r hfound' hstop' (by omega)
    · intro st
      rw [fillLoop_eq_eventLoop, ← hev]
      exact eventLoop_of_least (fillEvent GeV) f (k - 1) fuel 1 st hfound' hstop' (by omega)
  have hself := key file (fun _ _ _ => rfl)
  have han : ∀ (f : ShowerFile), (∀ i, 1 ≤ i → i ≤ k → f i = file i) →
      analyse GeV f fuel =
        some { ranges := adjustRanges ((eventsBefore file k).foldl (scanEvent GeV) initRanges),
               result := (eventsBefore file k).foldl (fillEvent GeV)
                 (initFill (adjustRanges
                   ((eventsBefore file k).foldl (scanEvent GeV) initRanges))) } := by
    intro f hf
    simp only [analyse, (key f hf).1, (key f hf).2]
  refine ⟨hself.1 _, hself.2, ⟨_, han file (fun _ _ _ => rfl), rfl, rfl, ?_⟩, ?_⟩
  · simp [main, han file (fun _ _ _ => rfl)]
  · intro f hf
    have h1 : analyse GeV f fuel = analyse GeV file fuel := by
      rw [han f hf, han file (fun _ _ _ => rfl)]
    exact ⟨h1, by simp only [main, h1]⟩

/-- C10 at the source of the scenario stream, whose least failing index is 2. -/
theorem C10_stops_at_first_failure_witness :
    (1 ≤ 2 ∧ (∀ i, 1 ≤ i → i < 2 → ((ofList scenario) i).isSome = true) ∧
      (ofList scenario) 2 = none ∧ 2 ≤ 2) ∧
    (scanLoop (Dbl.ofInt 1) (ofList scenario) 2 1 initRanges =
      some ((eventsBefore (ofList scenario) 2).foldl (scanEvent (Dbl.ofInt 1)) initRanges) ∧
    (∀ st, fillLoop (Dbl.ofInt 1) (ofList scenario) 2 1 st =
      some ((eventsBefore (ofList scenario) 2).foldl (fillEvent (Dbl.ofInt 1)) st)) ∧
    (∃ a, analyse (Dbl.ofInt 1) (ofList scenario) 2 = some a ∧
      a.ranges = adjustRanges
        ((eventsBefore (ofList scenario) 2).foldl (scanEvent (Dbl.ofInt 1)) initRanges) ∧
      a.result = (eventsBefore (ofList scenario) 2).foldl (fillEvent (Dbl.ofInt 1))
        (initFill a.ranges) ∧
      main (Dbl.ofInt 1) 2 (some (ofList scenario)) 2 = some (0, some (summary a))) ∧
    (∀ file' : ShowerFile, (∀ i, 1 ≤ i → i ≤ 2 → file' i = (ofList scenario) i) →
      analyse (Dbl.ofInt 1) file' 2 = analyse (Dbl.ofInt 1) (ofList scenario) 2 ∧
      main (Dbl.ofInt 1) 2 (some file') 2 =
        main (Dbl.ofInt 1) 2 (some (ofList scenario)) 2)) :=
  have hfound : ∀ i, 1 ≤ i → i < 2 → ((ofList scenario) i).isSome = true := by
    intro i h1 h2
    have : i = 1 := by omega
    subst this
    rfl
  ⟨⟨by decide, hfound, rfl, by decide⟩,
    C10_stops_at_first_failure (Dbl.ofInt 1) (ofList scenario) 2 2 (by decide) hfound rfl
      (by decide)⟩

end MuonReader
